import Mathlib

/-!
Shallow embedding of `unwindingtest.cpp`, a stress test for exception
unwinding across JIT-generated code.

Modelling conventions:
* C++ `int` is modelled as `Int`.  All arithmetic performed by the program
  stays far inside the 32-bit range (inputs are `-1` or values in
  `[1, 65536]`), so exact integer arithmetic coincides with machine
  arithmetic on every reachable value.
* C++ `uint64_t` is modelled as `Nat` with an explicit `% 2 ^ 64` wherever
  an operation can leave the 64-bit range (left shift, multiplication).
* A C++ function that can throw is modelled with `Except`: `Except.error e`
  is a thrown exception carrying `e`, `Except.ok r` a normal return of `r`.
* `exit(1)` (fatal process termination) is modelled by `Option`: `none` is
  the fatal path, `some x` a normal return of `x`.
-/

namespace UnwindingTest

/-- Compiled JIT unit.  The generated function `foo` has the fixed shape
`int foo(int(*bar)(int), int v) { return bar(v); }` (built by the IR code in
the `JITContainer` constructor), so its observable behaviour carries no
state: the container is a mere token. -/
inductive JITContainer : Type
  | mk

/-- Invocation of the compiled code: `foo(callback, v)` calls the callback on
`v` and returns its result unchanged; a callback exception propagates through
the generated frame to the caller. -/
def JITContainer.invoke (_ : JITContainer) (cb : Int → Except Int Int) (v : Int) :
    Except Int Int :=
  cb v

/-- The oracle callback: `throw v` on `v < 1`, otherwise `3*v+1` for odd `v`
and `v/2` for even `v`.  The source tests oddness with `v & 1`; on the branch
where it is evaluated `v ≥ 1` holds, so it equals `v % 2 = 1`.  Likewise
`v / 2` only runs on `v ≥ 1`, where C++ truncating division and Lean's `Int`
division agree. -/
def callback (v : Int) : Except Int Int :=
  if v < 1 then Except.error v
  else if v % 2 = 1 then Except.ok (3 * v + 1)
  else Except.ok (v / 2)

/-- The check helper `doTest(jitCode, input, expected)`: invokes the compiled
code with the oracle callback; a normal result is fatal when negative or
different from `expected`, an exception is fatal when `expected ≥ 0`; every
non-fatal path returns `true`. -/
def doTest (jitCode : JITContainer) (input expected : Int) : Option Bool :=
  match jitCode.invoke callback input with
  | Except.ok r => if r < 0 ∨ r ≠ expected then none else some true
  | Except.error _ => if 0 ≤ expected then none else some true

/-- The inline expected-value formula of the stress loop:
`(arg < 1) ? -1 : ((arg & 1) ? (3*arg + 1) : (arg / 2))`.  As in `callback`,
`arg & 1` is evaluated only when `arg ≥ 1`, where it equals `arg % 2 = 1`. -/
def expectedOf (arg : Int) : Int :=
  if arg < 1 then -1
  else if arg % 2 = 1 then 3 * arg + 1
  else arg / 2

/-- claim C1: the oracle callback, invoked through the compiled wrapper,
throws exactly `v` for every `v < 1`, and for `v ≥ 1` never throws and
returns `3v+1` for odd `v` and `v/2` for even `v`. -/
theorem C1_oracle_behavior (jit : JITContainer) (v : Int) :
    (v < 1 → jit.invoke callback v = Except.error v) ∧
    (1 ≤ v → v % 2 = 1 → jit.invoke callback v = Except.ok (3 * v + 1)) ∧
    (1 ≤ v → v % 2 = 0 → jit.invoke callback v = Except.ok (v / 2)) := by
  refine ⟨fun h => ?_, fun h hodd => ?_, fun h heven => ?_⟩
  · simp [JITContainer.invoke, callback, h]
  · simp [JITContainer.invoke, callback, hodd]
    omega
  · simp [JITContainer.invoke, callback, heven]
    omega

/-- claim C1, instantiated: input 5 returns 16, input 6 returns 3, input -2
throws -2. -/
theorem C1_oracle_behavior_witness :
    JITContainer.mk.invoke callback 5 = Except.ok 16 ∧
    JITContainer.mk.invoke callback 6 = Except.ok 3 ∧
    JITContainer.mk.invoke callback (-2) = Except.error (-2) := by
  refine ⟨?_, ?_, ?_⟩
  · have h := (C1_oracle_behavior JITContainer.mk 5).2.1 (by decide) (by decide)
    simpa using h
  · have h := (C1_oracle_behavior JITContainer.mk 6).2.2 (by decide) (by decide)
    simpa using h
  · exact (C1_oracle_behavior JITContainer.mk (-2)).1 (by decide)

/-- claim C2: on a normal return the check is fatal iff the result is
negative or differs from `expected`; on an exception it is fatal iff
`expected ≥ 0`; every non-fatal path returns `true`. -/
theorem C2_check_fatality (jit : JITContainer) (input expected : Int) :
    (∀ r, jit.invoke callback input = Except.ok r →
      (doTest jit input expected = none ↔ (r < 0 ∨ r ≠ expected))) ∧
    (∀ e, jit.invoke callback input = Except.error e →
      (doTest jit input expected = none ↔ 0 ≤ expected)) ∧
    (∀ b, doTest jit input expected = some b → b = true) := by
  refine ⟨fun r hr => ?_, fun e he => ?_, fun b hb => ?_⟩
  · rw [doTest, hr]
    by_cases h : r < 0 ∨ r ≠ expected <;> simp [h]
  · rw [doTest, he]
    by_cases h : 0 ≤ expected <;> simp [h]
  · rw [doTest] at hb
    rcases hcb : JITContainer.invoke jit callback input with r | r <;> rw [hcb] at hb <;>
      split at hb <;> simp_all

/-- claim C2, instantiated: input 3 with expected 10 passes; input 3 with
expected 9 is fatal; input 0 with expected -1 passes; input 0 with expected 0
is fatal. -/
theorem C2_check_fatality_witness :
    doTest JITContainer.mk 3 10 = some true ∧
    doTest JITContainer.mk 3 9 = none ∧
    doTest JITContainer.mk 0 (-1) = some true ∧
    doTest JITContainer.mk 0 0 = none := by
  refine ⟨?_, ?_, ?_, ?_⟩
  · have h := (C2_check_fatality JITContainer.mk 3 10).2.2
    rcases hd : doTest JITContainer.mk 3 10 with _ | b
    · have := ((C2_check_fatality JITContainer.mk 3 10).1 10 rfl).1 hd
      simp at this
    · rw [h b hd]
  · exact ((C2_check_fatality JITContainer.mk 3 9).1 10 rfl).2 (by decide)
  · have h := (C2_check_fatality JITContainer.mk 0 (-1)).2.2
    rcases hd : doTest JITContainer.mk 0 (-1) with _ | b
    · have := ((C2_check_fatality JITContainer.mk 0 (-1)).2.1 0 rfl).1 hd
      simp at this
    · rw [h b hd]
  · exact ((C2_check_fatality JITContainer.mk 0 0).2.1 0 rfl).2 (by decide)

/-- claim C3: the stress loop's inline expected-value formula is the oracle's
pure logic: for `arg ≥ 1` it is exactly the value the callback returns, and
for `arg < 1` it is the sentinel `-1`. -/
theorem C3_expected_matches_oracle (arg : Int) :
    (1 ≤ arg → callback arg = Except.ok (expectedOf arg)) ∧
    (arg < 1 → expectedOf arg = -1) := by
  constructor
  · intro h
    have hlt : ¬ arg < 1 := by omega
    by_cases hodd : arg % 2 = 1 <;> simp [callback, expectedOf, hlt, hodd]
  · intro h
    simp [expectedOf, h]

/-- claim C3, instantiated at arguments 7, 8 and 0. -/
theorem C3_expected_matches_oracle_witness :
    callback 7 = Except.ok (expectedOf 7) ∧
    callback 8 = Except.ok (expectedOf 8) ∧
    expectedOf 0 = -1 := by
  exact ⟨(C3_expected_matches_oracle 7).1 (by decide),
    (C3_expected_matches_oracle 8).1 (by decide),
    (C3_expected_matches_oracle 0).2 (by decide)⟩

/-- The xorshift generator `Random`: a single 64-bit state word. -/
structure Random where
  state : Nat

/-- Construction `Random(seed) : state((seed << 1) | 1)`, on 64-bit words. -/
def Random.init (seed : Nat) : Random :=
  ⟨((seed <<< 1) ||| 1) % 2 ^ 64⟩

/-- One draw, `Random::operator()`: three shift-xor steps on the state word
(the left shift reduced to 64 bits, as in the machine), store the result as
the new state, and return it times `0x2545F4914F6CDD1D` (64-bit product). -/
def Random.next (g : Random) : Nat × Random :=
  let x0 := g.state
  let x1 := x0 ^^^ (x0 >>> 12)
  let x2 := (x1 ^^^ (x1 <<< 25)) % 2 ^ 64
  let x3 := x2 ^^^ (x2 >>> 27)
  ((x3 * 0x2545F4914F6CDD1D) % 2 ^ 64, ⟨x3⟩)

/-- Specification-side description of one xorshift round: the three shift-xor
steps `x ^= x >> 12; x ^= x << 25; x ^= x >> 27` composed in order. -/
def xorshiftRound (s : Nat) : Nat :=
  let a := s ^^^ (s >>> 12)
  let b := (a ^^^ (a <<< 25)) % 2 ^ 64
  b ^^^ (b >>> 27)

/-- Sequence of the first `n` draws of a generator. -/
def Random.draws (g : Random) : Nat → List Nat
  | 0 => []
  | n + 1 =>
    let (r, g') := g.next
    r :: g'.draws n

/-- claim C4: construction stores `(seed << 1) | 1`; every draw applies the
three shift-xor steps, stores the result as the new state, and returns it
times `0x2545F4914F6CDD1D`; equal seeds give identical draw sequences. -/
theorem C4_generator_structure (seed : Nat) :
    (Random.init seed).state = ((seed <<< 1) ||| 1) % 2 ^ 64 ∧
    (∀ g : Random, (g.next.2).state = xorshiftRound g.state ∧
      g.next.1 = xorshiftRound g.state * 0x2545F4914F6CDD1D % 2 ^ 64) ∧
    (∀ s : Nat, seed = s → ∀ n, (Random.init seed).draws n = (Random.init s).draws n) := by
  refine ⟨rfl, fun g => ⟨rfl, rfl⟩, fun s hs n => by rw [hs]⟩

/-- claim C4, instantiated: the structural facts at seed 0, and sequence
equality at two copies of seed 7. -/
theorem C4_generator_structure_witness :
    (Random.init 0).state = ((0 <<< 1) ||| 1) % 2 ^ 64 ∧
    (Random.init 7).draws 3 = (Random.init 7).draws 3 := by
  exact ⟨(C4_generator_structure 0).1, (C4_generator_structure 7).2.2 7 rfl 3⟩

/-- Derivation of a test input from a draw `r`:
`int arg = ((r % 1000) < errorRate) ? -1 : ((r & 0xFFFF) + 1)`. -/
def deriveArg (errorRate r : Nat) : Int :=
  if r % 1000 < errorRate then -1 else ((r &&& 0xFFFF) + 1 : Nat)

/-- One iteration of the stress loop's body: draw `r`, derive the input, and
recompute the expected value from that same input with the inline formula. -/
def passStep (errorRate : Nat) (g : Random) : Int × Int × Random :=
  let (r, g') := g.next
  let arg := deriveArg errorRate r
  let expected := expectedOf arg
  (arg, expected, g')

/-- claim C5: the derived input is `-1` exactly when `r % 1000 < errorRate`,
otherwise `(r & 0xFFFF) + 1`, which lies in `[1, 65536]`; the expected value
of a loop iteration is recomputed from the derived input of the same single
draw, never drawn separately. -/
theorem C5_input_derivation (errorRate r : Nat) :
    (r % 1000 < errorRate → deriveArg errorRate r = -1) ∧
    (¬ r % 1000 < errorRate →
      deriveArg errorRate r = ((r &&& 0xFFFF : Nat) + 1 : Nat) ∧
      1 ≤ deriveArg errorRate r ∧ deriveArg errorRate r ≤ 65536) ∧
    (∀ g : Random,
      passStep errorRate g =
        (deriveArg errorRate g.next.1, expectedOf (deriveArg errorRate g.next.1),
          g.next.2)) := by
  refine ⟨fun h => by simp [deriveArg, h], fun h => ?_, fun g => rfl⟩
  have hmask : (r &&& 0xFFFF) ≤ 0xFFFF := Nat.and_le_right
  refine ⟨by simp [deriveArg, h], ?_, ?_⟩ <;> simp [deriveArg, h] <;> omega

/-- claim C5, instantiated: rate 500 with draw 499 forces `-1`; rate 0 with
draw 70000 derives `(70000 & 0xFFFF) + 1 = 4465`, inside `[1, 65536]`. -/
theorem C5_input_derivation_witness :
    deriveArg 500 499 = -1 ∧
    (deriveArg 0 70000 = ((70000 &&& 0xFFFF : Nat) + 1 : Nat) ∧
      1 ≤ deriveArg 0 70000 ∧ deriveArg 0 70000 ≤ 65536) := by
  exact ⟨(C5_input_derivation 500 499).1 (by decide),
    (C5_input_derivation 0 70000).2.1 (by decide)⟩

/-- Outer repetition count of a stress pass: `constexpr unsigned functionRepeat = 10`. -/
def functionRepeat : Nat := 10

/-- Inner invocation count per recreation: `constexpr unsigned repeat = 10000`. -/
def repeatCount : Nat := 10000

/-- Inner invocation loop of a stress pass, for one freshly created JIT unit:
draws an input, checks it, accumulates `result += doTest(...)`, and aborts
(`none`) if the check is fatal. -/
def runInner (errorRate : Nat) (jitCode : JITContainer) :
    Nat → Random → Nat → Option (Nat × Random)
  | 0, g, result => some (result, g)
  | n + 1, g, result =>
    let s := passStep errorRate g
    match doTest jitCode s.1 s.2.1 with
    | none => none
    | some b => runInner errorRate jitCode n s.2.2 (result + (if b then 1 else 0))

/-- Outer loop of a stress pass: recreates the JIT unit `p` more times and
runs the inner loop on each. -/
def runPass (errorRate : Nat) : Nat → Random → Nat → Option (Nat × Random)
  | 0, g, result => some (result, g)
  | p + 1, g, result =>
    match runInner errorRate JITContainer.mk repeatCount g result with
    | none => none
    | some rg => runPass errorRate p rg.2 rg.1

/-- One full stress pass `doTest(errorRate, seed)` (timing omitted): the
accumulated `result` counter, or `none` if some check was fatal. -/
def doTestPass (errorRate seed : Nat) : Option Nat :=
  (runPass errorRate functionRepeat (Random.init seed) 0).map Prod.fst

/-- The (input, expected) pairs of one unit recreation: `n` iterations of the
inner loop from generator state `g`. -/
def innerTrace (errorRate : Nat) : Nat → Random → List (Int × Int) × Random
  | 0, g => ([], g)
  | n + 1, g =>
    let s := passStep errorRate g
    let t := innerTrace errorRate n s.2.2
    ((s.1, s.2.1) :: t.1, t.2)

/-- The per-recreation blocks of (input, expected) pairs of a stress pass
with `p` unit recreations. -/
def passTrace (errorRate : Nat) : Nat → Random → List (List (Int × Int)) × Random
  | 0, g => ([], g)
  | p + 1, g =>
    let t := innerTrace errorRate repeatCount g
    let r := passTrace errorRate p t.2
    (t.1 :: r.1, r.2)

/-- Trace of the stress pass `doTest(errorRate, seed)`: one block of
(input, expected) pairs per JIT-unit recreation. -/
def doTestTrace (errorRate seed : Nat) : List (List (Int × Int)) :=
  (passTrace errorRate functionRepeat (Random.init seed)).1

/-- Traces of the passes run by `doTestMultithreaded(errorRate, threadCount)`:
one inline pass with seed 0 for `threadCount ≤ 1`, otherwise one pass per
spawned thread, seeded with the thread index. -/
def doTestMultithreadedTraces (errorRate threadCount : Nat) :
    List (List (List (Int × Int))) :=
  if threadCount ≤ 1 then [doTestTrace errorRate 0]
  else (List.range threadCount).map (doTestTrace errorRate)

theorem innerTrace_length (errorRate : Nat) :
    ∀ (n : Nat) (g : Random), ((innerTrace errorRate n g).1).length = n := by
  intro n
  induction n with
  | zero => intro g; rfl
  | succ n ih => intro g; simp [innerTrace, ih]

theorem passTrace_shape (errorRate : Nat) :
    ∀ (p : Nat) (g : Random), ((passTrace errorRate p g).1).length = p ∧
      ∀ b ∈ (passTrace errorRate p g).1, b.length = repeatCount := by
  intro p
  induction p with
  | zero => intro g; exact ⟨rfl, by intro b hb; cases hb⟩
  | succ p ih =>
    intro g
    refine ⟨by simp [passTrace, (ih _).1], ?_⟩
    intro b hb
    rw [passTrace] at hb
    rcases List.mem_cons.mp hb with h | h
    · rw [h]; exact innerTrace_length errorRate repeatCount g
    · exact (ih _).2 b h

/-- claim C6: with `threadCount ≤ 1` exactly one inline pass runs, seeded 0;
with `threadCount > 1` exactly `threadCount` passes run, seeded with the
thread indices `0 .. threadCount-1`; and every pass performs exactly 10 unit
recreations of exactly 10000 invocations each. -/
theorem C6_orchestration (errorRate threadCount : Nat) :
    (threadCount ≤ 1 →
      doTestMultithreadedTraces errorRate threadCount = [doTestTrace errorRate 0]) ∧
    (1 < threadCount →
      (doTestMultithreadedTraces errorRate threadCount).length = threadCount ∧
      ∀ i, i < threadCount →
        (doTestMultithreadedTraces errorRate threadCount)[i]? =
          some (doTestTrace errorRate i)) ∧
    (∀ seed, (doTestTrace errorRate seed).length = 10 ∧
      ∀ b ∈ doTestTrace errorRate seed, b.length = 10000) := by
  refine ⟨fun h => by simp [doTestMultithreadedTraces, h], fun h => ?_, fun seed => ?_⟩
  · have hnot : ¬ threadCount ≤ 1 := by omega
    constructor
    · simp [doTestMultithreadedTraces, hnot]
    · intro i hi
      simp [doTestMultithreadedTraces, hnot, List.getElem?_map, List.getElem?_range, hi]
  · exact ⟨(passTrace_shape errorRate functionRepeat (Random.init seed)).1,
      (passTrace_shape errorRate functionRepeat (Random.init seed)).2⟩

/-- claim C6, instantiated: one pass at thread count 1; three index-seeded
passes at thread count 3; pass shape at seed 5. -/
theorem C6_orchestration_witness :
    doTestMultithreadedTraces 0 1 = [doTestTrace 0 0] ∧
    (doTestMultithreadedTraces 0 3).length = 3 ∧
    (doTestMultithreadedTraces 0 3)[2]? = some (doTestTrace 0 2) ∧
    (doTestTrace 0 5).length = 10 := by
  exact ⟨(C6_orchestration 0 1).1 (by decide),
    ((C6_orchestration 0 3).2.1 (by decide)).1,
    ((C6_orchestration 0 3).2.1 (by decide)).2 2 (by decide),
    ((C6_orchestration 0 5).2.2 5).1⟩

theorem callback_eq_expectedOf {arg : Int} (h : 1 ≤ arg) :
    callback arg = Except.ok (expectedOf arg) := by
  have hlt : ¬ arg < 1 := by omega
  by_cases hodd : arg % 2 = 1 <;> simp [callback, expectedOf, hlt, hodd]

theorem expectedOf_nonneg {arg : Int} (h : 1 ≤ arg) : 0 ≤ expectedOf arg := by
  rw [expectedOf]
  split
  · omega
  · split <;> omega

theorem doTest_expectedOf (jit : JITContainer) (arg : Int) :
    doTest jit arg (expectedOf arg) = some true := by
  by_cases h : arg < 1
  · have hcb : callback arg = Except.error arg := by simp [callback, h]
    have he : expectedOf arg = -1 := by simp [expectedOf, h]
    simp [doTest, JITContainer.invoke, hcb, he]
  · have h1 : 1 ≤ arg := by omega
    have hcb := callback_eq_expectedOf h1
    have hnn := expectedOf_nonneg h1
    simp [doTest, JITContainer.invoke, hcb, not_lt.mpr hnn]

theorem runInner_total (errorRate : Nat) (jit : JITContainer) :
    ∀ (n : Nat) (g : Random) (result : Nat),
      ∃ g', runInner errorRate jit n g result = some (result + n, g') := by
  intro n
  induction n with
  | zero => intro g result; exact ⟨g, by simp [runInner]⟩
  | succ n ih =>
    intro g result
    have hstep : doTest jit (passStep errorRate g).1 (passStep errorRate g).2.1 =
        some true := doTest_expectedOf jit _
    obtain ⟨g', hg'⟩ := ih (passStep errorRate g).2.2 (result + 1)
    refine ⟨g', ?_⟩
    rw [runInner]
    simp only [hstep, if_true]
    have harith : result + (n + 1) = result + 1 + n := by omega
    rw [harith]
    exact hg'

theorem runPass_total (errorRate : Nat) :
    ∀ (p : Nat) (g : Random) (result : Nat),
      ∃ g', runPass errorRate p g result = some (result + p * repeatCount, g') := by
  intro p
  induction p with
  | zero => intro g result; exact ⟨g, by simp [runPass]⟩
  | succ p ih =>
    intro g result
    obtain ⟨g1, h1⟩ := runInner_total errorRate JITContainer.mk repeatCount g result
    obtain ⟨g2, h2⟩ := ih g1 (result + repeatCount)
    refine ⟨g2, ?_⟩
    rw [runPass, h1]
    show runPass errorRate p g1 (result + repeatCount) = _
    rw [h2]
    have harith : result + repeatCount + p * repeatCount =
        result + (p + 1) * repeatCount := by ring
    rw [harith]

/-- claim C10: the check helper returns `true` on every path on which it
returns at all, so a completed pass accumulates exactly `10 * 10000 = 100000`
in its result counter; in particular the counter is nonzero and the
`invalid result!` branch is unreachable. -/
theorem C10_pass_counter (errorRate seed : Nat) :
    (∀ (jit : JITContainer) (input expected : Int) (b : Bool),
      doTest jit input expected = some b → b = true) ∧
    doTestPass errorRate seed = some (10 * 10000) ∧
    ¬ doTestPass errorRate seed = some 0 := by
  have htrue : ∀ (jit : JITContainer) (input expected : Int) (b : Bool),
      doTest jit input expected = some b → b = true := by
    intro jit input expected b hb
    rw [doTest] at hb
    rcases hcb : JITContainer.invoke jit callback input with r | e <;> rw [hcb] at hb <;>
      split at hb <;> simp_all
  obtain ⟨g', hg'⟩ := runPass_total errorRate functionRepeat (Random.init seed) 0
  refine ⟨htrue, ?_, ?_⟩
  · rw [doTestPass, hg']
    rfl
  · rw [doTestPass, hg']
    simp [functionRepeat, repeatCount]

/-- claim C10, instantiated: the pass with error rate 3 and seed 7 counts
100000, and the check at input 2 against expected 1 returns `true`. -/
theorem C10_pass_counter_witness :
    doTestPass 3 7 = some (10 * 10000) ∧ true = true := by
  exact ⟨(C10_pass_counter 3 7).2.1,
    (C10_pass_counter 3 7).1 JITContainer.mk 2 1 true rfl⟩

/-- One atomic step visible to a worker inside the duration-reporting loop
`while ((duration > current) && (!maxDuration.compare_exchange_weak(current, duration))) {}`.
A state is the pair `(current, shared)`: the thread's last observed value and
the shared `maxDuration` cell.  `env` is interference: another thread's
successful compare-and-swap, which can only grow the cell.  `fail` is this
thread's failed (possibly spuriously failed) compare-and-swap, taken while
`duration > current`; it reloads the actual cell value into `current`. -/
inductive CasStep (duration : Nat) : Nat × Nat → Nat × Nat → Prop
  | env {c s s' : Nat} : s ≤ s' → CasStep duration (c, s) (c, s')
  | fail {c s : Nat} : c < duration → CasStep duration (c, s) (s, s)

/-- Exit of the reporting loop: either the compare-and-swap succeeds (the
cell still holds `current`, which is replaced by `duration`), or
`duration > current` fails, leaving the cell unchanged.  The value is the
cell's content at the moment the loop stops. -/
inductive CasExit (duration : Nat) : Nat × Nat → Nat → Prop
  | swap {c s : Nat} : c < duration → s = c → CasExit duration (c, s) duration
  | stop {c s : Nat} : duration ≤ c → CasExit duration (c, s) s

theorem casStep_inv {d : Nat} {p q : Nat × Nat} (h : CasStep d p q) (hp : p.1 ≤ p.2) :
    q.1 ≤ q.2 := by
  cases h with
  | env hss => exact le_trans hp hss
  | fail _ => exact le_refl _

theorem casReach_inv {d : Nat} {p q : Nat × Nat}
    (h : Relation.ReflTransGen (CasStep d) p q) (hp : p.1 ≤ p.2) : q.1 ≤ q.2 := by
  induction h with
  | refl => exact hp
  | tail _ hstep ih => exact casStep_inv hstep ih

/-- claim C7: a thread's reporting loop, started from a load of the shared
cell and run under arbitrary monotone interference, stops only when its swap
succeeded or the observed value is no longer smaller than its duration; at
that point the cell is at least the thread's duration, and therefore so is
every later (hence the final, post-join) value of the cell. -/
theorem C7_max_aggregation (duration s0 c s exitVal finalVal : Nat)
    (hreach : Relation.ReflTransGen (CasStep duration) (s0, s0) (c, s))
    (hexit : CasExit duration (c, s) exitVal)
    (hmono : exitVal ≤ finalVal) :
    (duration ≤ c ∨ (c < duration ∧ s = c ∧ exitVal = duration)) ∧
    duration ≤ exitVal ∧ duration ≤ finalVal := by
  have hcs : c ≤ s := casReach_inv hreach (le_refl s0)
  cases hexit with
  | swap hlt heq => exact ⟨Or.inr ⟨hlt, heq, rfl⟩, le_refl _, hmono⟩
  | stop hle =>
    exact ⟨Or.inl hle, le_trans hle hcs, le_trans (le_trans hle hcs) hmono⟩

/-- claim C7, instantiated: a thread with duration 5 that loads 0, suffers a
spurious failure, then swaps successfully; the final cell value 7 written by
a later thread is at least 5. -/
theorem C7_max_aggregation_witness : (5 : Nat) ≤ 7 := by
  have hreach : Relation.ReflTransGen (CasStep 5) (0, 0) ((0 : Nat), (0 : Nat)) :=
    Relation.ReflTransGen.single (CasStep.fail (by decide))
  exact (C7_max_aggregation 5 0 0 0 5 7 hreach
    (CasExit.swap (by decide) rfl) (by decide)).2.2

/-- Loop of `buildThreadCounts`: starting from `{1}`, repeatedly
`push_back(std::min(back * 2, maxCount))` while `back < maxCount`, with
`back` (the last element) cached as an argument.  `back * 2` is a 32-bit
`unsigned` product, hence the `% 2 ^ 32`: from `back = 2 ^ 31` it wraps to 0,
and the loop then never exits.  The loop is therefore embedded fuel-indexed:
`some l` means the loop exits with list `l` within `fuel` iterations, `none`
that it is still running after `fuel` iterations. -/
def buildLoop (maxCount : Nat) : Nat → Nat → List Nat → Option (List Nat)
  | 0, _, _ => none
  | fuel + 1, back, acc =>
    if back < maxCount then
      buildLoop maxCount fuel (min (back * 2 % 2 ^ 32) maxCount)
        (acc ++ [min (back * 2 % 2 ^ 32) maxCount])
    else some acc

/-- Default thread-count sweep list for a given maximum:
`std::vector<unsigned> threadCounts{1}` followed by the doubling loop, run
with the given iteration budget. -/
def buildThreadCounts (maxCount fuel : Nat) : Option (List Nat) :=
  buildLoop maxCount fuel 1 [1]

/-- Divergence of the thread-count loop: no iteration budget makes
`buildThreadCounts` return. -/
def buildDiverges (maxCount : Nat) : Prop :=
  ∀ fuel, buildThreadCounts maxCount fuel = none

theorem buildLoop_zero (maxCount : Nat) (hm : 0 < maxCount) :
    ∀ (fuel : Nat) (acc : List Nat), buildLoop maxCount fuel 0 acc = none := by
  intro fuel
  induction fuel with
  | zero => intro acc; rfl
  | succ fuel ih =>
    intro acc
    simp only [buildLoop]
    rw [if_pos hm]
    have h0 : min (0 * 2 % 2 ^ 32) maxCount = 0 := by simp
    rw [h0]
    exact ih _

theorem buildLoop_diverge (fuel : Nat) :
    ∀ (back : Nat) (acc : List Nat),
      (back = 0 ∨ ∃ k, k ≤ 31 ∧ back = 2 ^ k) →
      buildLoop 2147483649 fuel back acc = none := by
  induction fuel with
  | zero => intro back acc _; rfl
  | succ fuel ih =>
    intro back acc hP
    rcases hP with h0 | ⟨k, hk, h2⟩
    · subst h0
      exact buildLoop_zero 2147483649 (by norm_num) (fuel + 1) acc
    · subst h2
      have hlt : 2 ^ k < 2147483649 := by
        have hle : 2 ^ k ≤ 2 ^ 31 := Nat.pow_le_pow_right (by norm_num) hk
        omega
      simp only [buildLoop]
      rw [if_pos hlt]
      apply ih
      by_cases hk31 : k = 31
      · subst hk31
        left
        decide
      · right
        refine ⟨k + 1, by omega, ?_⟩
        have hmul : 2 ^ k * 2 = 2 ^ (k + 1) := (pow_succ 2 k).symm
        have hsmall : 2 ^ (k + 1) ≤ 2 ^ 31 :=
          Nat.pow_le_pow_right (by norm_num) (by omega)
        have hmod : 2 ^ (k + 1) % 2 ^ 32 = 2 ^ (k + 1) :=
          Nat.mod_eq_of_lt (by omega)
        rw [hmul, hmod, min_eq_left (by omega)]

theorem buildLoop_spec (maxCount back : Nat) (acc : List Nat)
    (hb : 0 < back) (hbm : back ≤ maxCount) (hcap : maxCount ≤ 2 ^ 31)
    (hhead : acc.head? = some 1) (hlast : acc.getLast? = some back)
    (hchain : List.Chain' (· < ·) acc)
    (hfull : back < maxCount → List.Chain' (fun a b => b = 2 * a) acc)
    (hdrop : List.Chain' (fun a b => b = 2 * a) acc.dropLast)
    (hle : ∀ x ∈ acc, x ≤ back) :
    ∃ l, (∀ fuel, maxCount - back < fuel → buildLoop maxCount fuel back acc = some l) ∧
      l.head? = some 1 ∧ l.getLast? = some maxCount ∧
      List.Chain' (· < ·) l ∧
      List.Chain' (fun a b => b = 2 * a) l.dropLast ∧
      (∀ x ∈ l, x ≤ maxCount) := by
  by_cases hcond : back < maxCount
  · have hwrap : back * 2 % 2 ^ 32 = back * 2 := Nat.mod_eq_of_lt (by omega)
    have hbe : back < min (back * 2) maxCount := lt_min (by omega) hcond
    have hem : min (back * 2) maxCount ≤ maxCount := min_le_right _ _
    have hfull' := hfull hcond
    have hhead' : (acc ++ [min (back * 2) maxCount]).head? = some 1 := by
      cases acc with
      | nil => simp at hhead
      | cons a l => simpa using hhead
    have hlast' : (acc ++ [min (back * 2) maxCount]).getLast? =
        some (min (back * 2) maxCount) := by
      simp
    have hpair : ∀ x ∈ acc.getLast?, ∀ y ∈ [min (back * 2) maxCount].head?, x < y := by
      intro x hx y hy
      simp only [Option.mem_def] at hx hy
      rw [hlast] at hx
      simp only [List.head?_cons, Option.some_inj] at hy
      cases hx
      omega
    have hchain' : List.Chain' (· < ·) (acc ++ [min (back * 2) maxCount]) := by
      rw [List.chain'_append]
      exact ⟨hchain, List.chain'_singleton _, hpair⟩
    have hfull2 : min (back * 2) maxCount < maxCount →
        List.Chain' (fun a b => b = 2 * a) (acc ++ [min (back * 2) maxCount]) := by
      intro hlt
      have h2b : min (back * 2) maxCount = back * 2 := by
        rcases le_total (back * 2) maxCount with h | h
        · exact min_eq_left h
        · rw [min_eq_right h] at hlt; omega
      rw [List.chain'_append]
      refine ⟨hfull', List.chain'_singleton _, ?_⟩
      intro x hx y hy
      simp only [Option.mem_def] at hx hy
      rw [hlast] at hx
      simp only [List.head?_cons, Option.some_inj] at hy
      cases hx
      omega
    have hdrop2 : List.Chain' (fun a b => b = 2 * a)
        (acc ++ [min (back * 2) maxCount]).dropLast := by
      rw [List.dropLast_concat]
      exact hfull'
    have hle2 : ∀ x ∈ acc ++ [min (back * 2) maxCount], x ≤ min (back * 2) maxCount := by
      intro x hx
      rcases List.mem_append.mp hx with h | h
      · exact le_trans (hle x h) (le_of_lt hbe)
      · simp at h; omega
    obtain ⟨l, hrun, hp⟩ := buildLoop_spec maxCount (min (back * 2) maxCount)
      (acc ++ [min (back * 2) maxCount]) (by omega) hem hcap hhead' hlast' hchain'
      hfull2 hdrop2 hle2
    refine ⟨l, ?_, hp⟩
    intro fuel hfuel
    cases fuel with
    | zero => omega
    | succ f =>
      simp only [buildLoop]
      rw [if_pos hcond, hwrap]
      exact hrun f (by omega)
  · have hback : back = maxCount := by omega
    subst hback
    refine ⟨acc, ?_, hhead, hlast, hchain, hdrop, hle⟩
    intro fuel hfuel
    cases fuel with
    | zero => omega
    | succ f =>
      simp only [buildLoop]
      rw [if_neg hcond]
termination_by maxCount - back
decreasing_by
  omega

/-- claim C9 counterexample: at `maxCount = 2147483649` — a valid `unsigned`
value, and in the claim's domain `maxCount ≥ 1` — `back` doubles up to
`2 ^ 31`, then `back * 2` wraps modulo `2 ^ 32` to 0 and the loop pushes 0
forever: the builder never returns any list at all, so in particular no list
ending at `maxCount`. -/
theorem C9_thread_count_list_counterexample : buildDiverges 2147483649 := by
  intro fuel
  exact buildLoop_diverge fuel 1 [1] (Or.inr ⟨0, by omega, rfl⟩)

/-- claim C9 (amended): for every `maxCount` with `1 ≤ maxCount ≤ 2 ^ 31`
(where the unsigned product `back * 2` cannot wrap) the loop terminates —
under any iteration budget beyond `maxCount` — with a single list that starts
at 1, is strictly increasing, doubles at every step except possibly the
last, stays at most `maxCount` and ends exactly at `maxCount`; for
`maxCount = 0` it returns `[1]` immediately. -/
theorem C9_thread_count_list (maxCount : Nat) :
    (1 ≤ maxCount → maxCount ≤ 2 ^ 31 →
      ∃ l, (∀ fuel, maxCount < fuel → buildThreadCounts maxCount fuel = some l) ∧
        l.head? = some 1 ∧ l.getLast? = some maxCount ∧
        List.Chain' (· < ·) l ∧
        List.Chain' (fun a b => b = 2 * a) l.dropLast ∧
        ∀ x ∈ l, x ≤ maxCount) ∧
    (∀ fuel, 0 < fuel → buildThreadCounts 0 fuel = some [1]) := by
  constructor
  · intro h1 hcap
    obtain ⟨l, hrun, hp⟩ := buildLoop_spec maxCount 1 [1] (by omega) h1 hcap rfl rfl
      (List.chain'_singleton 1) (fun _ => List.chain'_singleton 1) (by simp)
      (by intro x hx; simp at hx; omega)
    exact ⟨l, fun fuel hf => hrun fuel (by omega), hp⟩
  · intro fuel hf
    cases fuel with
    | zero => omega
    | succ f =>
      simp only [buildThreadCounts, buildLoop]
      norm_num

/-- claim C9 (amended), instantiated at maximum 4 with budget 6 (giving
`[1, 2, 4]`) and at maximum 0 with budget 1. -/
theorem C9_thread_count_list_witness :
    buildThreadCounts 0 1 = some [1] ∧
    (∃ l, buildThreadCounts 4 6 = some l ∧ l.head? = some 1 ∧
      l.getLast? = some 4) := by
  obtain ⟨l, hrun, hh, hl, _, _, _⟩ := (C9_thread_count_list 4).1 (by decide) (by decide)
  exact ⟨(C9_thread_count_list 0).2 1 (by decide), l, hrun 6 (by decide), hh, hl⟩

/-- Whitespace characters skipped by `std::stoi` (default locale `isspace`). -/
def isSpaceChar (c : Char) : Bool :=
  c == ' ' || c == '\t' || c == '\n' || c == '\x0b' || c == '\x0c' || c == '\r'

/-- Value of a decimal digit string. -/
def digitsToNat (ds : List Char) : Nat :=
  ds.foldl (fun a c => a * 10 + (c.toNat - 48)) 0

/-- Largest value of the C++ `int` used by `std::stoi`. -/
def intMax : Int := 2147483647

/-- Smallest value of the C++ `int` used by `std::stoi`. -/
def intMin : Int := -2147483648

/-- Model of `std::stoi`: skip leading whitespace, an optional sign, then a
maximal run of decimal digits.  `none` models a thrown exception — either
`invalid_argument` (no digits) or `out_of_range` (outside `int`); in this
program that exception is never caught, so `none` aborts the run. -/
def stoi (s : List Char) : Option Int :=
  let t := s.dropWhile (fun c => isSpaceChar c)
  let signed : Int × List Char :=
    match t with
    | '-' :: rest => (-1, rest)
    | '+' :: rest => (1, rest)
    | _ => (1, t)
  let ds := signed.2.takeWhile (fun c => c.isDigit)
  if ds.isEmpty then none
  else
    let v := signed.1 * (digitsToNat ds : Int)
    if v < intMin ∨ intMax < v then none else some v

/-- Conversion of the `std::stoi` result to `unsigned c`: reduction modulo
2^32. -/
def toUnsigned (v : Int) : Nat := (v % 2 ^ 32).toNat

/-- Splitting loop of `interpretThreadCounts`: repeatedly take the prefix
before the first space, then the remainder.  Consecutive, leading or trailing
spaces yield empty tokens, exactly as the `substr`-based source loop does. -/
def splitSpaces : List Char → List (List Char)
  | [] => [[]]
  | c :: cs =>
    if c = ' ' then [] :: splitSpaces cs
    else
      match splitSpaces cs with
      | t :: ts => (c :: t) :: ts
      | [] => [[c]]

/-- The `add` lambda of `interpretThreadCounts`:
`unsigned c = std::stoi(desc); if (c) threadCounts.push_back(c)`, threaded
over a possibly already-crashed accumulator. -/
def addTok (acc : Option (List Nat)) (tok : List Char) : Option (List Nat) :=
  match acc with
  | none => none
  | some l =>
    match stoi tok with
    | none => none
    | some v => some (if toUnsigned v ≠ 0 then l ++ [toUnsigned v] else l)

/-- `interpretThreadCounts(desc)`: split on spaces and add every token;
`none` models the program dying on an uncaught `std::stoi` exception. -/
def interpretThreadCounts (desc : List Char) : Option (List Nat) :=
  (splitSpaces desc).foldl addTok (some [])

/-- Outcome of `main`'s argument loop.  `usageError msg` prints `msg` and
returns 1 before any test work; `crashed` is an uncaught `std::stoi`
exception; `run tc` proceeds to the tests with sweep list `tc`. -/
inductive MainResult
  | usageError (msg : String)
  | crashed
  | run (threadCounts : List Nat)
deriving DecidableEq

/-- Argument loop of `main`, starting from the default sweep list: a
`--threads` with a following value replaces the list via
`interpretThreadCounts`; any other argument (including a trailing
`--threads` with no value) prints `unknown option <arg>` and exits 1. -/
def parseArgs (threadCounts : List Nat) : List String → MainResult
  | [] => MainResult.run threadCounts
  | [o] => MainResult.usageError ("unknown option " ++ o)
  | o :: v :: rest =>
    if o = "--threads" then
      match interpretThreadCounts v.data with
      | none => MainResult.crashed
      | some tc => parseArgs tc rest
    else MainResult.usageError ("unknown option " ++ o)

theorem foldl_addTok (ts : List (List Char)) :
    ∀ acc : List Nat, (∀ t ∈ ts, (stoi t).isSome) →
      ts.foldl addTok (some acc) =
        some (acc ++ ts.filterMap
          (fun t => (stoi t).bind
            (fun x => if toUnsigned x = 0 then none else some (toUnsigned x)))) := by
  induction ts with
  | nil => intro acc _; simp
  | cons t ts ih =>
    intro acc hall
    have ht : (stoi t).isSome := hall t (List.mem_cons_self t ts)
    obtain ⟨x, hx⟩ := Option.isSome_iff_exists.mp ht
    have ihtail := fun a => ih a (fun u hu => hall u (List.mem_cons_of_mem _ hu))
    by_cases hz : toUnsigned x = 0
    · simp [addTok, hx, hz, List.filterMap_cons, ihtail]
    · simp [addTok, hx, hz, List.filterMap_cons, ihtail]

/-- claim C8 counterexample: the token `-1` is parsed by `std::stoi` as the
negative integer `-1`, not as a positive integer, and it is not discarded:
converted to `unsigned` it becomes the thread count 4294967295. -/
theorem C8_args_counterexample :
    stoi ("-1".data) = some (-1) ∧
    interpretThreadCounts ("-1".data) = some [4294967295] ∧
    parseArgs [1] ["--threads", "-1"] = MainResult.run [4294967295] := by
  refine ⟨by decide, by decide, by decide⟩

/-- claim C8 (amended): a leading argument that is not `--threads` followed
by a value yields `unknown option <arg>` and exit status 1 before any test
work; `--threads v` replaces the sweep list by the tokens of `v`, each parsed
by `std::stoi` as a signed integer and converted to `unsigned` (reduction
modulo 2^32, so negative tokens wrap), with tokens converting to zero
discarded. -/
theorem C8_args_amended (defaults : List Nat) (o v : String) (rest : List String) :
    (o ≠ "--threads" →
      parseArgs defaults (o :: rest) = MainResult.usageError ("unknown option " ++ o)) ∧
    parseArgs defaults [o] = MainResult.usageError ("unknown option " ++ o) ∧
    (∀ tc, interpretThreadCounts v.data = some tc →
      parseArgs defaults ("--threads" :: v :: rest) = parseArgs tc rest) ∧
    ((∀ t ∈ splitSpaces v.data, (stoi t).isSome) →
      interpretThreadCounts v.data =
        some ((splitSpaces v.data).filterMap
          (fun t => (stoi t).bind
            (fun x => if toUnsigned x = 0 then none else some (toUnsigned x))))) := by
  refine ⟨fun h => ?_, ?_, fun tc htc => ?_, fun hall => ?_⟩
  · cases rest with
    | nil => simp [parseArgs]
    | cons v' rest' => simp [parseArgs, h]
  · simp [parseArgs]
  · simp [parseArgs, htc]
  · rw [interpretThreadCounts]
    simpa using foldl_addTok (splitSpaces v.data) [] hall

/-- claim C8 (amended), instantiated: `--bogus` is rejected with the exact
message; `--threads "2 0 3"` replaces the sweep list by `[2, 3]`, the zero
token discarded. -/
theorem C8_args_amended_witness :
    parseArgs [1] ["--bogus"] = MainResult.usageError ("unknown option " ++ "--bogus") ∧
    parseArgs [1] ["--threads", "2 0 3"] = parseArgs [2, 3] [] ∧
    interpretThreadCounts ("2 0 3".data) = some [2, 3] := by
  refine ⟨(C8_args_amended [1] "--bogus" "" []).2.1, ?_, ?_⟩
  · exact (C8_args_amended [1] "--bogus" "2 0 3" []).2.2.1 [2, 3] (by decide)
  · have h := (C8_args_amended [1] "--bogus" "2 0 3" []).2.2.2 (by decide)
    rw [h]
    decide

end UnwindingTest
